import Mathlib

set_option autoImplicit false

namespace NextActionPlus

/-- Model of the JavaScript runtime values the library manipulates.
`formData` models an actual instance of the global FormData class
(the `instanceof FormData` check distinguishes it from every other value);
`date` models a Date instance, carrying its time value together with the
locale-dependent string its `toString` produces, so stringification is exact;
`obj` a plain object as an ordered field list. -/
inductive JSValue where
  | undefined
  | null
  | bool (b : Bool)
  | num (n : Int)
  | str (s : String)
  | arr (elems : List JSValue)
  | date (t : Int) (rendering : String)
  | obj (fields : List (String × JSValue))
  | formData (entries : List (String × String))

/-- Truthiness of a JS value, as used by `if (x)` and `&&` in the source. -/
def truthy : JSValue → Bool
  | .undefined => false
  | .null => false
  | .bool b => b
  | .num n => n != 0
  | .str s => s ≠ ""
  | .arr _ => true
  | .date _ _ => true
  | .obj _ => true
  | .formData _ => true

/-- Nullish check, as used by the `??` operator in the source. -/
def nullish : JSValue → Bool
  | .undefined => true
  | .null => true
  | _ => false

/-- Reads an own property of an object value; a missing property is `undefined`,
as is any property access on a non-object model value used by the source. -/
def getField : JSValue → String → JSValue
  | .obj fs, k => ((fs.find? (fun p => p.1 == k)).map Prod.snd).getD .undefined
  | _, _ => .undefined

/-- Models the `in` operator on the values the source tests with it
(own named properties; arrays, dates and FormData expose none of the
property names the source asks about). -/
def hasField : JSValue → String → Bool
  | .obj fs, k => fs.any (fun p => p.1 == k)
  | _, _ => false

/-- Single property assignment as performed by object spread: an existing key
keeps its position and gets the new value, a fresh key is appended. -/
def setField : List (String × JSValue) → String → JSValue → List (String × JSValue)
  | [], k, v => [(k, v)]
  | p :: fs, k, v => if p.1 = k then (k, v) :: fs else p :: setField fs k v

/-- Shallow merge `\x7b ...a, ...b \x7d`: the fields of `b` are assigned over
those of `a` in order, so later keys win. -/
def spreadMerge (a b : List (String × JSValue)) : List (String × JSValue) :=
  b.foldl (fun acc p => setField acc p.1 p.2) a

/-- First-match lookup in a field list (a JS object holds each key once). -/
def getKey : List (String × JSValue) → String → Option JSValue
  | [], _ => none
  | p :: fs, k => if p.1 = k then some p.2 else getKey fs k

/-- Value of the last occurrence of a key, the one a later spread keeps. -/
def lastVal : List (String × JSValue) → String → Option JSValue
  | [], _ => none
  | p :: fs, k => (lastVal fs k).or (if p.1 = k then some p.2 else none)

/-- Translation of `isPlainObject` (src/index.ts line 214): true for a value of
typeof object that is neither null, an array, nor a Date. A FormData instance
satisfies the source predicate, so it does here too. -/
def isPlainObject : JSValue → Bool
  | .obj _ => true
  | .formData _ => true
  | _ => false

/-- Own enumerable fields seen by object spread: the fields of a plain object,
and nothing for a FormData instance (its entries are not own properties). -/
def fieldsOf : JSValue → List (String × JSValue)
  | .obj fs => fs
  | _ => []

/-- Translation of the `input instanceof FormData` test (src/index.ts line 175):
only an actual FormData instance passes, never a duck-typed look-alike object. -/
def isFormData : JSValue → Bool
  | .formData _ => true
  | _ => false

mutual
/-- Model of JS `String(x)` on the values the error formatter can meet: the
primitive renderings, the comma join of arrays, the `[object ...]` tags of
plain objects and FormData, and the rendering a Date value carries. Numbers
are model integers, printed in decimal as JS prints every integer of ordinary
magnitude (below 10^21). -/
def jsToString : JSValue → String
  | .undefined => "undefined"
  | .null => "null"
  | .bool b => if b then "true" else "false"
  | .num n => toString n
  | .str s => s
  | .arr xs => String.intercalate "," (jsToStringList xs)
  | .date _ s => s
  | .obj _ => "[object Object]"
  | .formData _ => "[object FormData]"

/-- Array elements stringified for `Array.prototype.toString`: null and
undefined render as the empty string. -/
def jsToStringList : List JSValue → List String
  | [] => []
  | x :: xs =>
    (match x with
     | .null => ""
     | .undefined => ""
     | v => jsToString v) :: jsToStringList xs
end

/-- Result object of a safe (non-throwing) probe: `\x7b success, data? \x7d`. -/
structure SafeResult where
  success : Bool
  data : JSValue

/-- Capability record of an opaque validator. Each field models the presence
of the corresponding callable property on the schema object; a function models
what calling it does (a `.error` is a throw or rejection). A schema that is
not an object at all is modelled by all capabilities absent. -/
structure Schema where
  parseAsync? : Option (JSValue → Except JSValue JSValue) := none
  parse? : Option (JSValue → Except JSValue JSValue) := none
  safeParseAsync? : Option (JSValue → Except JSValue SafeResult) := none
  safeParse? : Option (JSValue → Except JSValue SafeResult) := none
  standardValidate? : Option (JSValue → Except JSValue JSValue) := none

/-- Error object thrown by `parseSchema` when no protocol matches. -/
def unsupportedSchemaError : JSValue :=
  .obj [("name", .str "Error"), ("message", .str "Unsupported schema type")]

/-- Error object synthesized on a Standard Schema failure: a generic Error
whose `issues` property is set to the result issue list. -/
def standardIssuesError (issues : JSValue) : JSValue :=
  .obj [("name", .str "Error"), ("message", .str "Validation error"), ("issues", issues)]

/-- Translation of `parseSchema` (src/index.ts lines 218-250): try `parseAsync`,
then `parse`, then the `~standard` capability, else throw an unsupported-schema
error. A Standard result object carrying `issues` becomes a thrown synthesized
error; one carrying `value` returns that value; any other result falls through
to the unsupported-schema error. -/
def parseSchema (s : Schema) (input : JSValue) : Except JSValue JSValue :=
  match s.parseAsync? with
  | some f => f input
  | none =>
    match s.parse? with
    | some f => f input
    | none =>
      match s.standardValidate? with
      | some v =>
        match v input with
        | .error e => .error e
        | .ok result =>
          if truthy result && hasField result "issues" then
            .error (standardIssuesError (getField result "issues"))
          else if truthy result && hasField result "value" then
            .ok (getField result "value")
          else
            .error unsupportedSchemaError
      | none => .error unsupportedSchemaError

/-- Fallback branch of `tryParseSchema`: call the throwing `parseSchema` and
turn any thrown value into a failed probe. -/
def tryFallback (s : Schema) (input : JSValue) : Option JSValue :=
  match parseSchema s input with
  | .ok v => some v
  | .error _ => none

/-- Translation of `tryParseSchema` (src/index.ts lines 252-288): prefer
`safeParseAsync`, then `safeParse`, then the `~standard` capability, finally
fall back to the throwing `parseSchema` with every throw caught. -/
def tryParseSchema (s : Schema) (input : JSValue) : Option JSValue :=
  match s.safeParseAsync? with
  | some f =>
    match f input with
    | .ok r => if r.success then some r.data else none
    | .error _ => none
  | none =>
    match s.safeParse? with
    | some f =>
      match f input with
      | .ok r => if r.success then some r.data else none
      | .error _ => none
    | none =>
      match s.standardValidate? with
      | some v =>
        match v input with
        | .error _ => none
        | .ok result =>
          if truthy result && hasField result "issues" then
            none
          else if truthy result && hasField result "value" then
            some (getField result "value")
          else
            tryFallback s input
      | none => tryFallback s input

/-- FormData scan of `validateInput` (src/index.ts lines 176-186): walk the
chain in order; the first schema whose probe succeeds is removed (splice) and
its parsed value becomes the base input; the scan stops there. -/
def formDataScan : List Schema → JSValue → (List Schema × JSValue)
  | [], input => ([], input)
  | s :: rest, input =>
    match tryParseSchema s input with
    | some v => (rest, v)
    | none =>
      let r := formDataScan rest input
      (s :: r.1, r.2)

/-- Merge loop of `validateInput` (src/index.ts lines 199-211): run every
remaining schema against the same base input; a plain-object output is spread
into the accumulator, any other output replaces the last-non-object slot. -/
def runSchemas (schemas : List Schema) (base : JSValue)
    (merged : Option (List (String × JSValue))) (lastNonObject : JSValue) :
    Except JSValue JSValue :=
  match schemas with
  | [] =>
    .ok (match merged with
         | some m => .obj m
         | none => lastNonObject)
  | s :: rest =>
    match parseSchema s base with
    | .error e => .error e
    | .ok parsed =>
      if isPlainObject parsed then
        runSchemas rest base (some (spreadMerge (merged.getD []) (fieldsOf parsed))) lastNonObject
      else
        runSchemas rest base merged parsed

/-- Translation of `validateInput` (src/index.ts lines 165-212): empty chain
passes the input through; a FormData input triggers the first-match probe scan;
an emptied working set returns the base directly; a single remaining schema is
parsed directly; otherwise the merge loop runs. -/
def validateInput (schemas : List Schema) (input : JSValue) : Except JSValue JSValue :=
  if schemas.isEmpty then .ok input
  else
    let scan := if isFormData input then formDataScan schemas input else (schemas, input)
    match scan.1 with
    | [] => .ok scan.2
    | [s] => parseSchema s scan.2
    | _ => runSchemas scan.1 scan.2 none .undefined

/-- Context accumulator of the middleware runner: a record of string keys. -/
def Ctx := List (String × JSValue)

/-- Behaviours a middleware function can exhibit, each a function of the input
and of the frozen context snapshot it receives:
`cont` computes an optional patch and returns `next(\x7b ctx: patch \x7d)`
(or plain `next()` when the patch is absent); `halt` returns a context of its
own without calling `next`; `throwErr` throws. -/
inductive MW where
  | cont (f : JSValue → Ctx → Option Ctx)
  | halt (f : JSValue → Ctx → Ctx)
  | throwErr (f : JSValue → Ctx → JSValue)

/-- Translation of `runNext` inside `runMiddlewareChain` (src/index.ts lines
295-312): merge the optional patch into the accumulator first; if middlewares
remain, invoke the next one with a frozen shallow copy of the accumulator and
return its result; otherwise return the accumulator. -/
def runNext (input : JSValue) : List MW → Ctx → Option Ctx → Except JSValue Ctx
  | mws, acc, patch =>
    let acc' := match patch with
                | some p => spreadMerge acc p
                | none => acc
    match mws with
    | [] => .ok acc'
    | m :: rest =>
      match m with
      | .cont f => runNext input rest acc' (f input acc')
      | .halt f => .ok (f input acc')
      | .throwErr f => .error (f input acc')

/-- Translation of `runMiddlewareChain` (src/index.ts lines 290-315): start
from a shallow copy of the base context and run `runNext` with no patch. -/
def runMiddlewareChain (mws : List MW) (baseCtx : Ctx) (input : JSValue) :
    Except JSValue Ctx :=
  runNext input mws baseCtx none

/-- Normalized path segment of a validation issue: a string or a number. -/
inductive PathSeg where
  | str (s : String)
  | num (n : Int)
deriving DecidableEq

def segToString : PathSeg → String
  | .str s => s
  | .num n => toString n

/-- Normalized validation issue: path, message and the raw issue object. -/
structure Issue where
  path : List PathSeg
  message : String
  raw : JSValue

/-- Translation of `normalizeIssuePath` (src/index.ts lines 124-135): a
non-array path is empty; segments that are strings or numbers pass through, a
segment object with a `key` property is unwrapped to that key (stringified
when the key is neither string nor number), anything else is stringified. -/
def normalizeIssuePath : JSValue → List PathSeg
  | .arr segs =>
    segs.map (fun seg =>
      match seg with
      | .str s => .str s
      | .num n => .num n
      | .obj fs =>
        if hasField (.obj fs) "key" then
          match getField (.obj fs) "key" with
          | .str s => .str s
          | .num n => .num n
          | k => .str (jsToString k)
        else
          .str (jsToString (.obj fs))
      | v => .str (jsToString v))
  | _ => []

/-- Message field of a normalized issue: a string message passes through,
otherwise `String(message ?? "")`. -/
def normalizeIssueMessage (m : JSValue) : String :=
  match m with
  | .str s => s
  | v => if nullish v then jsToString (.str "") else jsToString v

/-- Translation of `normalizeIssues` (src/index.ts lines 137-151) on its
non-throwing domain, characterized by `normalizeIssuesOk`: a non-object error
has no issues; otherwise the raw list is `error.errors ?? error.issues ?? []`
and each entry is normalized. On the complement of that domain the source
throws a TypeError while this total model returns a list; theorems about the
issue pipeline therefore carry `normalizeIssuesOk` as a hypothesis. -/
def normalizeIssues (e : JSValue) : List Issue :=
  match e with
  | .obj fs =>
    let er := getField (.obj fs) "errors"
    let raw := if nullish er then getField (.obj fs) "issues" else er
    let raw := if nullish raw then .arr [] else raw
    match raw with
    | .arr xs =>
      xs.map (fun issue =>
        { path := normalizeIssuePath (getField issue "path")
          message := normalizeIssueMessage (getField issue "message")
          raw := issue })
    | _ => []
  | _ => []

/-- Translation of `formatValidationErrorParts` (src/index.ts lines 153-163):
with no normalized issue the message is `Validation error: String(error)`;
otherwise the first issue alone is rendered, the empty path showing as
`unknown` and an empty message falling back to `String(error)`. -/
def formatValidationErrorParts (e : JSValue) : String × List Issue :=
  let issues := normalizeIssues e
  match issues with
  | [] => ("Validation error: " ++ jsToString e, [])
  | first :: _ =>
    let fieldPath := if first.path.length != 0 then
        String.intercalate "." (first.path.map segToString)
      else "unknown"
    let message := if first.message ≠ "" then first.message else jsToString e
    ("Input (" ++ fieldPath ++ ") is error: " ++ message, issues)

/-- Character-list version of `String.startsWith`. -/
def startsWithList : List Char → List Char → Bool
  | _, [] => true
  | [], _ :: _ => false
  | a :: as, b :: bs => a == b && startsWithList as bs

/-- Whether `pat` occurs as a contiguous run inside `hay`. -/
def containsList (hay pat : List Char) : Bool :=
  match hay with
  | [] => startsWithList [] pat
  | _ :: rest => startsWithList hay pat || containsList rest pat

/-- Model of `String.prototype.includes`. -/
def strContainsSub (s pat : String) : Bool :=
  containsList s.toList pat.toList

/-- Translation of `isValidationError` (src/index.ts lines 317-328): a
non-null object whose `name` is exactly `ZodError` or contains the substring
`ValidationError`, or which has an `errors` or `issues` property. Deviation:
for a `name` property that is not a string the source throws a TypeError at
`errName.includes` (line 322) while this total model stringifies the name and
continues; the theorems only evaluate it at errors with string names. -/
def isValidationError (e : JSValue) : Bool :=
  match e with
  | .obj fs =>
    (hasField (.obj fs) "name" &&
      (let n := jsToString (getField (.obj fs) "name")
       n == "ZodError" || strContainsSub n "ValidationError"))
    || hasField (.obj fs) "errors" || hasField (.obj fs) "issues"
  | _ => false

/-- Configuration options of the client (the callback fields are modelled as
optional functions from the error context they receive to the value they
return; `onError` returns nothing and is modelled by recording the context
it is handed). -/
structure ErrCtx where
  phase : String
  error : JSValue
  input : JSValue
  parsedInput : JSValue
  ctx : JSValue
  message : Option String := none
  issues : Option (List Issue) := none

structure Options where
  includeInputInErrorDetails : Option Bool := none
  formatValidationError? : Option (ErrCtx → JSValue) := none
  formatError? : Option (ErrCtx → JSValue) := none

/-- JSValue form of a normalized issue, as stored on the built-in error. -/
def issueToJS (i : Issue) : JSValue :=
  .obj [("path", .arr (i.path.map (fun s => match s with
          | .str t => .str t
          | .num n => .num n))),
        ("message", .str i.message),
        ("raw", i.raw)]

/-- The built-in validation error constructed at src/index.ts lines 105-110:
an ActionPlusValidationError carrying message, code, phase, cause, issues and
conditionally data. -/
def builtinValidationError (message : String) (issues : List Issue)
    (phase : String) (cause : JSValue) (data : JSValue) : JSValue :=
  .obj [("name", .str "ActionPlusValidationError"),
        ("message", .str message),
        ("code", .str "VALIDATION_ERROR"),
        ("phase", .str phase),
        ("cause", cause),
        ("data", data),
        ("issues", .arr (issues.map issueToJS))]

/-- Outcome of the catch block of the produced action function: which branch
ran, the context handed to the `onError` hook (and to the formatter of that
branch), and the value finally thrown. -/
structure CatchResult where
  isValidation : Bool
  hookCtx : ErrCtx
  thrown : JSValue

/-- Translation of the catch block of `action` (src/index.ts lines 82-120):
build the base context, gating `input`, `parsedInput` and `ctx` on the
`includeInputInErrorDetails === true` option; on the validation branch extend
it with message and issues, hand it to the hook, and throw the formatter
result (falling back to the built-in error when the formatter is absent or
returns a nullish value); on the other branch hand the base context to the
hook and throw the truthy `formatError` result or the original error. -/
def runActionCatch (opts : Options) (phase : String)
    (error input parsedForErrors ctxForErrors : JSValue) : CatchResult :=
  let includeInput := opts.includeInputInErrorDetails = some true
  let base : ErrCtx :=
    { phase := phase
      error := error
      input := if includeInput then input else .undefined
      parsedInput := if includeInput then parsedForErrors else .undefined
      ctx := if includeInput then ctxForErrors else .undefined }
  if isValidationError error then
    let parts := formatValidationErrorParts error
    let vctx := { base with message := some parts.1, issues := some parts.2 }
    let builtin := builtinValidationError parts.1 parts.2 phase error
      (if includeInput then
        .obj [("input", input), ("parsedInput", parsedForErrors), ("ctx", ctxForErrors)]
       else .undefined)
    let thrown := match opts.formatValidationError? with
      | some f => let r := f vctx; if nullish r then builtin else r
      | none => builtin
    { isValidation := true, hookCtx := vctx, thrown := thrown }
  else
    { isValidation := false
      hookCtx := base
      thrown := match opts.formatError? with
        | some f => let r := f base; if truthy r then r else error
        | none => error }

/-- Translation of the body of the produced action function (src/index.ts
lines 62-121): validate, run the middleware chain, run the handler, tracking
the phase and the values available to error reporting; any thrown value goes
through the catch block. -/
def runAction (schemas : List Schema) (mws : List MW) (baseCtx : Ctx)
    (opts : Options) (handler : JSValue → Ctx → Except JSValue JSValue)
    (input : JSValue) : Except CatchResult JSValue :=
  match validateInput schemas input with
  | .error e => .error (runActionCatch opts "validation" e input .undefined .undefined)
  | .ok parsedInput =>
    match runMiddlewareChain mws baseCtx parsedInput with
    | .error e => .error (runActionCatch opts "middleware" e input parsedInput .undefined)
    | .ok ctx =>
      match handler parsedInput ctx with
      | .error e => .error (runActionCatch opts "handler" e input parsedInput (.obj ctx))
      | .ok out => .ok out

/-- The builder state: validator chain, middleware chain, base context and
options (src/index.ts lines 11-29). -/
structure ActionPlus where
  schemas : List Schema
  middlewares : List MW
  ctx : Ctx
  options : Options

/-- Translation of `ActionPlus.schema` (src/index.ts lines 35-42): build a new
client whose validator list appends the new schema, every other part shared. -/
def ActionPlus.schema (b : ActionPlus) (s : Schema) : ActionPlus :=
  { schemas := b.schemas ++ [s]
    middlewares := b.middlewares
    ctx := b.ctx
    options := b.options }

/-- Translation of `ActionPlus.use` (src/index.ts lines 48-55): build a new
client whose middleware list appends the new middleware, every other part
shared. -/
def ActionPlus.use (b : ActionPlus) (m : MW) : ActionPlus :=
  { schemas := b.schemas
    middlewares := b.middlewares ++ [m]
    ctx := b.ctx
    options := b.options }

/-- Spec-side description of one step of the multi-schema merge (spec section
4.2 step 5), over a single validator output: a plain-object output is
shallow-merged into the running merged-object accumulator, any other output
replaces the last-non-object slot. -/
def mergeStep (st : Option (List (String × JSValue)) × JSValue) (v : JSValue) :
    Option (List (String × JSValue)) × JSValue :=
  if isPlainObject v then (some (spreadMerge (st.1.getD []) (fieldsOf v)), st.2)
  else (st.1, v)

/-- Spec-side description of the multi-schema result over the list of validator
outputs: the merged object if any object output occurred, else the last
non-object output, else undefined. -/
def mergeOutcomeSpec (outputs : List JSValue) : JSValue :=
  match outputs.foldl mergeStep (none, .undefined) with
  | (some m, _) => .obj m
  | (none, last) => last

/-- Sample values and validators used to witness the theorems on concrete
runs. -/
def exObjA : JSValue := .obj [("a", .str "a")]

def exObjB : JSValue := .obj [("b", .num 2)]

def schemaA : Schema := { parse? := some (fun _ => .ok exObjA) }

def schemaB : Schema := { parse? := some (fun _ => .ok exObjB) }

def schemaNum : Schema := { parse? := some (fun _ => .ok (.num 7)) }

def schemaFD : Schema :=
  { safeParse? := some (fun i => .ok ⟨isFormData i, .obj [("name", .str "Grace")]⟩) }

def schemaNone : Schema := {}

def exFD : JSValue := .formData [("name", "Grace")]

/-- Validator whose probe always fails (a safe parse returning success false). -/
def schemaReject : Schema := { safeParse? := some (fun _ => .ok ⟨false, .undefined⟩) }

/-- Validator with both an async and a sync parse operation. -/
def schemaAsync : Schema :=
  { parseAsync? := some (fun _ => .ok (.str "async"))
    parse? := some (fun _ => .ok (.str "sync")) }

/-- Validator with both a throwing sync parse and the Standard capability. -/
def schemaBoth : Schema :=
  { parse? := some (fun _ => .error (.str "thrown"))
    standardValidate? := some (fun _ => .ok (.obj [("value", .str "std")])) }

/-- Standard-only validator whose validate reports issues. -/
def schemaStdFail : Schema :=
  { standardValidate? := some (fun _ => .ok (.obj [("issues", .arr [.str "bad"])])) }

/-- Standard-only validator whose validate succeeds with a value. -/
def schemaStdOk : Schema :=
  { standardValidate? := some (fun _ => .ok (.obj [("value", .num 3)])) }

/-- Standard-only validator whose validate itself throws. -/
def schemaStdThrow : Schema :=
  { standardValidate? := some (fun _ => .error (.str "rejected")) }

/-- Handler that always throws a plain string error. -/
def handlerBoom : JSValue → Ctx → Except JSValue JSValue :=
  fun _ _ => .error (.str "boom")

/-- Catch outcome of a failing handler run with default options. -/
def exCatch : CatchResult :=
  runActionCatch {} "handler" (.str "boom") (.num 0) (.num 0) (.obj [])

/-- Copy of a validator with its safe probe capabilities removed; the throwing
parse path never reads them. -/
def stripSafeProbes (s : Schema) : Schema :=
  { s with safeParseAsync? := none, safeParse? := none }

/-! Lemmas about the shallow-merge primitives. -/

theorem getKey_setField (fs : List (String × JSValue)) (k : String) (v : JSValue)
    (k' : String) :
    getKey (setField fs k v) k' = if k' = k then some v else getKey fs k' := by
  induction fs with
  | nil =>
    simp only [setField, getKey]
    by_cases h : k = k'
    · simp [h]
    · simp [h, Ne.symm h]
  | cons p fs ih =>
    simp only [setField]
    by_cases hp : p.1 = k
    · rw [if_pos hp]
      simp only [getKey]
      by_cases hk : k' = k
      · simp [hk]
      · have h1 : ¬ k = k' := fun hh => hk hh.symm
        have h2 : ¬ p.1 = k' := fun hh => hk (hp ▸ hh).symm
        simp [h1, h2, hk]
    · rw [if_neg hp]
      simp only [getKey]
      by_cases hpk : p.1 = k'
      · have h1 : ¬ k' = k := fun hh => hp (hpk.trans hh)
        simp [hpk, h1]
      · simp [hpk, ih]

theorem getKey_spreadMerge (b a : List (String × JSValue)) (k : String) :
    getKey (spreadMerge a b) k = (lastVal b k).or (getKey a k) := by
  induction b generalizing a with
  | nil => simp [spreadMerge, lastVal]
  | cons p b ih =>
    have hstep : spreadMerge a (p :: b) = spreadMerge (setField a p.1 p.2) b := rfl
    rw [hstep, ih, getKey_setField]
    simp only [lastVal]
    cases hlv : lastVal b k with
    | some v => simp
    | none =>
      simp only [Option.none_or]
      by_cases hp : p.1 = k
      · rw [if_pos hp, if_pos (hp.symm)]
        rfl
      · rw [if_neg hp, if_neg (fun hh => hp hh.symm)]
        rfl

theorem runSchemas_eq_foldl (input : JSValue) (schemas : List Schema)
    (vs : List JSValue)
    (h : List.Forall₂ (fun s v => parseSchema s input = .ok v) schemas vs) :
    ∀ (merged : Option (List (String × JSValue))) (lastN : JSValue),
      runSchemas schemas input merged lastN =
        .ok (match vs.foldl mergeStep (merged, lastN) with
             | (some m, _) => .obj m
             | (none, last) => last) := by
  induction h with
  | nil =>
    intro merged lastN
    cases merged <;> rfl
  | @cons s v ss vt h1 htail ih =>
    intro merged lastN
    rw [runSchemas, h1]
    simp only [List.foldl_cons]
    by_cases hv : isPlainObject v = true
    · rw [if_pos hv]
      rw [ih]
      simp [mergeStep, hv]
    · rw [if_neg hv]
      rw [ih]
      simp [mergeStep, hv]

/-- C1: with more than one remaining validator, every validator runs against
the same working input in chain order; plain-object outputs are shallow-merged
with later keys winning, other outputs fill a last-non-object slot, and the
result is the merged object if any object output occurred, else the last
non-object output, else undefined; looking up a key in the shallow merge of
`a` under `b` yields the last value of the key in `b`, else its value in `a`. -/
theorem c1_multi_schema_merge :
    (∀ (schemas : List Schema) (vs : List JSValue) (input : JSValue),
       isFormData input = false →
       2 ≤ schemas.length →
       List.Forall₂ (fun s v => parseSchema s input = .ok v) schemas vs →
       validateInput schemas input = .ok (mergeOutcomeSpec vs)) ∧
    (∀ (schemas rest : List Schema) (vs : List JSValue) (input base : JSValue),
       isFormData input = true →
       formDataScan schemas input = (rest, base) →
       2 ≤ rest.length →
       List.Forall₂ (fun s v => parseSchema s base = .ok v) rest vs →
       validateInput schemas input = .ok (mergeOutcomeSpec vs)) ∧
    (∀ (a b : List (String × JSValue)) (k : String),
       getKey (spreadMerge a b) k = (lastVal b k).or (getKey a k)) := by
  refine ⟨?_, ?_, ?_⟩
  · intro schemas vs input hF hlen hall
    match schemas, hlen with
    | s1 :: s2 :: more, _ =>
      rw [validateInput]
      simp only [List.isEmpty_cons, Bool.false_eq_true, if_false, hF]
      exact runSchemas_eq_foldl input _ vs hall none .undefined
  · intro schemas rest vs input base hF hscan hlen hall
    cases schemas with
    | nil =>
      rw [show formDataScan [] input = ([], input) from rfl] at hscan
      cases hscan
      simp at hlen
    | cons a more =>
      rw [validateInput]
      rw [if_neg (by simp)]
      rw [if_pos hF, hscan]
      match rest, hlen with
      | r1 :: r2 :: rs, _ =>
        exact runSchemas_eq_foldl base _ vs hall none .undefined
  · exact fun a b k => getKey_spreadMerge b a k

theorem c1_multi_schema_merge_witness :
    isFormData (JSValue.obj []) = false ∧
    2 ≤ [schemaA, schemaB].length ∧
    validateInput [schemaA, schemaB] (.obj []) =
      .ok (mergeOutcomeSpec [exObjA, exObjB]) ∧
    validateInput [schemaA, schemaB] (.obj []) =
      .ok (.obj [("a", .str "a"), ("b", .num 2)]) ∧
    validateInput [schemaFD, schemaA, schemaB] exFD =
      .ok (mergeOutcomeSpec [exObjA, exObjB]) := by
  refine ⟨rfl, by decide, ?_, rfl, ?_⟩
  · exact c1_multi_schema_merge.1 [schemaA, schemaB] [exObjA, exObjB] (.obj []) rfl
      (by decide)
      (List.Forall₂.cons rfl (List.Forall₂.cons rfl List.Forall₂.nil))
  · exact c1_multi_schema_merge.2.1 [schemaFD, schemaA, schemaB] [schemaA, schemaB]
      [exObjA, exObjB] exFD (.obj [("name", .str "Grace")]) rfl rfl (by decide)
      (List.Forall₂.cons rfl (List.Forall₂.cons rfl List.Forall₂.nil))

/-- C2: on FormData input the chain is scanned in order; the first validator
with a succeeding probe is removed and its output becomes the working input,
the scan stopping there; with no succeeding probe the working set and input
are unchanged; and an emptied working set returns the decoded value directly. -/
theorem c2_formdata_substitution :
    (∀ (pre post : List Schema) (s : Schema) (input v : JSValue),
       (∀ p ∈ pre, tryParseSchema p input = none) →
       tryParseSchema s input = some v →
       formDataScan (pre ++ s :: post) input = (pre ++ post, v)) ∧
    (∀ (schemas : List Schema) (input : JSValue),
       (∀ p ∈ schemas, tryParseSchema p input = none) →
       formDataScan schemas input = (schemas, input)) ∧
    (∀ (schemas : List Schema) (input v : JSValue),
       isFormData input = true →
       schemas ≠ [] →
       formDataScan schemas input = ([], v) →
       validateInput schemas input = .ok v) := by
  refine ⟨?_, ?_, ?_⟩
  · intro pre post s input v hpre hs
    induction pre with
    | nil => simp [formDataScan, hs]
    | cons p rest ih =>
      have hp : tryParseSchema p input = none := hpre p (by simp)
      have hrest : ∀ q ∈ rest, tryParseSchema q input = none :=
        fun q hq => hpre q (by simp [hq])
      simp [formDataScan, hp, ih hrest]
  · intro schemas input hnone
    induction schemas with
    | nil => rfl
    | cons p rest ih =>
      have hp : tryParseSchema p input = none := hnone p (by simp)
      have hrest : ∀ q ∈ rest, tryParseSchema q input = none :=
        fun q hq => hnone q (by simp [hq])
      simp [formDataScan, hp, ih hrest]
  · intro schemas input v hF hne hscan
    rw [validateInput]
    rw [if_neg (by simpa using hne)]
    rw [if_pos hF, hscan]

theorem c2_formdata_substitution_witness :
    (∀ p ∈ [schemaReject], tryParseSchema p exFD = none) ∧
    formDataScan [schemaReject, schemaFD, schemaA] exFD =
      ([schemaReject, schemaA], .obj [("name", .str "Grace")]) ∧
    formDataScan [schemaReject] exFD = ([schemaReject], exFD) ∧
    validateInput [schemaFD] exFD = .ok (.obj [("name", .str "Grace")]) := by
  have hrej : ∀ p ∈ [schemaReject], tryParseSchema p exFD = none := by
    intro p hp
    rw [List.mem_singleton.mp hp]
    rfl
  refine ⟨hrej, ?_, ?_, ?_⟩
  · exact c2_formdata_substitution.1 [schemaReject] [schemaA] schemaFD exFD
      (.obj [("name", .str "Grace")]) hrej rfl
  · exact c2_formdata_substitution.2.1 [schemaReject] exFD hrej
  · exact c2_formdata_substitution.2.2 [schemaFD] exFD (.obj [("name", .str "Grace")])
      rfl (by simp) rfl

/-- C3: next merges its patch into the accumulator first, then invokes the
next middleware in order on a copy of the accumulator, or returns the
accumulator when none remain; two middlewares patching a then b produce the
merged context for the handler, and a middleware returning without calling
next makes its return value the final context, the handler still running. -/
theorem c3_middleware_chain :
    (∀ (input : JSValue) (mws : List MW) (acc p : Ctx),
       runNext input mws acc (some p) = runNext input mws (spreadMerge acc p) none) ∧
    (∀ (input : JSValue) (f : JSValue → Ctx → Option Ctx) (rest : List MW) (acc : Ctx),
       runNext input (.cont f :: rest) acc none = runNext input rest acc (f input acc)) ∧
    (∀ (input : JSValue) (acc : Ctx), runNext input [] acc none = .ok acc) ∧
    (∀ (input : JSValue),
       runMiddlewareChain
         [.cont (fun _ _ => some [("a", .str "x")]), .cont (fun _ _ => some [("b", .num 1)])]
         [] input = .ok [("a", .str "x"), ("b", .num 1)]) ∧
    (∀ (f : JSValue → Ctx → Ctx) (baseCtx : Ctx) (opts : Options)
       (handler : JSValue → Ctx → Except JSValue JSValue) (input out : JSValue),
       handler input (f input baseCtx) = .ok out →
       runAction [] [.halt f] baseCtx opts handler input = .ok out) := by
  refine ⟨?_, ?_, ?_, ?_, ?_⟩
  · intro input mws acc p
    cases mws with
    | nil => rfl
    | cons m rest => cases m <;> rfl
  · intro input f rest acc
    rfl
  · intro input acc
    rfl
  · intro input
    rfl
  · intro f baseCtx opts handler input out h
    have hred : runAction [] [.halt f] baseCtx opts handler input =
        (match handler input (f input baseCtx) with
         | .error e =>
           .error (runActionCatch opts "handler" e input input (.obj (f input baseCtx)))
         | .ok o => .ok o) := rfl
    rw [hred, h]

theorem c3_middleware_chain_witness :
    runAction [] [.halt (fun _ _ => [("h", .num 1)])] [] {}
        (fun _ c => .ok (.obj c)) (.num 0) = .ok (.obj [("h", .num 1)]) := by
  exact c3_middleware_chain.2.2.2.2 (fun _ _ => [("h", .num 1)]) [] {}
    (fun _ c => .ok (.obj c)) (.num 0) (.obj [("h", .num 1)]) rfl

/-- C4: a validator with none of the supported protocols makes `parseSchema`
throw the unsupported-schema error, which the error normalizer never
classifies as a validation error, so the action takes the non-validation
branch and, with no formatter configured, rethrows that error unchanged. -/
theorem c4_unsupported_schema_error :
    (∀ (s : Schema) (input : JSValue),
       s.parseAsync? = none → s.parse? = none → s.standardValidate? = none →
       parseSchema s input = .error unsupportedSchemaError) ∧
    isValidationError unsupportedSchemaError = false ∧
    (∀ (s : Schema) (input : JSValue) (mws : List MW) (baseCtx : Ctx)
       (opts : Options) (handler : JSValue → Ctx → Except JSValue JSValue),
       s.parseAsync? = none → s.parse? = none → s.safeParseAsync? = none →
       s.safeParse? = none → s.standardValidate? = none →
       runAction [s] mws baseCtx opts handler input =
         .error (runActionCatch opts "validation" unsupportedSchemaError input .undefined .undefined) ∧
       (runActionCatch opts "validation" unsupportedSchemaError input .undefined .undefined).isValidation
         = false ∧
       (opts.formatError? = none →
         (runActionCatch opts "validation" unsupportedSchemaError input .undefined .undefined).thrown
           = unsupportedSchemaError)) := by
  have hparse : ∀ (s : Schema) (input : JSValue),
      s.parseAsync? = none → s.parse? = none → s.standardValidate? = none →
      parseSchema s input = .error unsupportedSchemaError := by
    intro s input h1 h2 h3
    rw [parseSchema, h1, h2, h3]
  have hnotval : isValidationError unsupportedSchemaError = false := rfl
  refine ⟨hparse, hnotval, ?_⟩
  intro s input mws baseCtx opts handler h1 h2 h3 h4 h5
  have hprobe : tryParseSchema s input = none := by
    rw [tryParseSchema, h3, h4, h5, tryFallback, hparse s input h1 h2 h5]
  have hval : validateInput [s] input = .error unsupportedSchemaError := by
    rw [validateInput]
    rw [if_neg (by simp)]
    by_cases hF : isFormData input = true
    · rw [if_pos hF]
      have hscan : formDataScan [s] input = ([s], input) := by
        rw [formDataScan, hprobe]
        rfl
      rw [hscan]
      exact hparse s input h1 h2 h5
    · rw [if_neg hF]
      exact hparse s input h1 h2 h5
  refine ⟨?_, ?_, ?_⟩
  · rw [runAction, hval]
  · rw [runActionCatch]
    simp [hnotval]
  · intro hfe
    rw [runActionCatch]
    simp [hnotval, hfe]

theorem c4_unsupported_schema_error_witness :
    parseSchema schemaNone (.num 5) = .error unsupportedSchemaError ∧
    runAction [schemaNone] [] [] {} (fun _ c => .ok (.obj c)) (.num 5) =
      .error (runActionCatch {} "validation" unsupportedSchemaError (.num 5) .undefined .undefined) ∧
    (runActionCatch {} "validation" unsupportedSchemaError (.num 5) .undefined .undefined).isValidation
      = false ∧
    (runActionCatch {} "validation" unsupportedSchemaError (.num 5) .undefined .undefined).thrown
      = unsupportedSchemaError := by
  have h := c4_unsupported_schema_error.2.2 schemaNone (.num 5) [] [] {}
    (fun _ c => .ok (.obj c)) rfl rfl rfl rfl rfl
  exact ⟨c4_unsupported_schema_error.1 schemaNone (.num 5) rfl rfl rfl,
    h.1, h.2.1, h.2.2 rfl⟩

/-- C5: the adapter tries an async parse first, then a sync parse, then the
Standard capability, first match winning; a Standard result with issues throws
the synthesized issues error, one with a value returns it, and a validate
rejection propagates; a validator with both a throwing parse and the Standard
capability takes the throwing path. -/
theorem c5_dispatch_order :
    (∀ (s : Schema) (f : JSValue → Except JSValue JSValue) (input : JSValue),
       s.parseAsync? = some f → parseSchema s input = f input) ∧
    (∀ (s : Schema) (f : JSValue → Except JSValue JSValue) (input : JSValue),
       s.parseAsync? = none → s.parse? = some f → parseSchema s input = f input) ∧
    (∀ (s : Schema) (v : JSValue → Except JSValue JSValue) (input e : JSValue),
       s.parseAsync? = none → s.parse? = none → s.standardValidate? = some v →
       v input = .error e → parseSchema s input = .error e) ∧
    (∀ (s : Schema) (v : JSValue → Except JSValue JSValue) (input result : JSValue),
       s.parseAsync? = none → s.parse? = none → s.standardValidate? = some v →
       v input = .ok result →
       (truthy result && hasField result "issues") = true →
       parseSchema s input = .error (standardIssuesError (getField result "issues"))) ∧
    (∀ (s : Schema) (v : JSValue → Except JSValue JSValue) (input result : JSValue),
       s.parseAsync? = none → s.parse? = none → s.standardValidate? = some v →
       v input = .ok result →
       (truthy result && hasField result "issues") = false →
       (truthy result && hasField result "value") = true →
       parseSchema s input = .ok (getField result "value")) := by
  refine ⟨?_, ?_, ?_, ?_, ?_⟩
  · intro s f input h1
    simp only [parseSchema, h1]
  · intro s f input h1 h2
    simp only [parseSchema, h1, h2]
  · intro s v input e h1 h2 h3 hv
    simp only [parseSchema, h1, h2, h3, hv]
  · intro s v input result h1 h2 h3 hv hiss
    simp only [parseSchema, h1, h2, h3, hv]
    simp [hiss]
  · intro s v input result h1 h2 h3 hv hiss hval
    simp only [parseSchema, h1, h2, h3, hv]
    simp [hiss, hval]

theorem c5_dispatch_order_witness :
    parseSchema schemaAsync (.num 0) = .ok (.str "async") ∧
    parseSchema schemaBoth (.num 0) = .error (.str "thrown") ∧
    parseSchema schemaStdThrow (.num 0) = .error (.str "rejected") ∧
    parseSchema schemaStdFail (.num 0) =
      .error (standardIssuesError (.arr [.str "bad"])) ∧
    parseSchema schemaStdOk (.num 0) = .ok (.num 3) := by
  refine ⟨?_, ?_, ?_, ?_, ?_⟩
  · exact c5_dispatch_order.1 schemaAsync (fun _ => .ok (.str "async")) (.num 0) rfl
  · exact c5_dispatch_order.2.1 schemaBoth (fun _ => .error (.str "thrown")) (.num 0) rfl rfl
  · exact c5_dispatch_order.2.2.1 schemaStdThrow (fun _ => .error (.str "rejected"))
      (.num 0) (.str "rejected") rfl rfl rfl rfl
  · have h := c5_dispatch_order.2.2.2.1 schemaStdFail
      (fun _ => .ok (.obj [("issues", .arr [.str "bad"])])) (.num 0)
      (.obj [("issues", .arr [.str "bad"])]) rfl rfl rfl rfl rfl
    simpa using h
  · have h := c5_dispatch_order.2.2.2.2 schemaStdOk
      (fun _ => .ok (.obj [("value", .num 3)])) (.num 0)
      (.obj [("value", .num 3)]) rfl rfl rfl rfl rfl rfl
    simpa using h

/-- C7: `schema` and `use` are persistent chain extensions: each returns a
new builder value appending one element to the corresponding sequence and
sharing every other part of the receiver unchanged. -/
theorem c7_builder_persistent :
    ∀ (b : ActionPlus) (s : Schema) (m : MW),
      (b.schema s).schemas = b.schemas ++ [s] ∧
      (b.schema s).middlewares = b.middlewares ∧
      (b.schema s).ctx = b.ctx ∧
      (b.schema s).options = b.options ∧
      (b.use m).middlewares = b.middlewares ++ [m] ∧
      (b.use m).schemas = b.schemas ∧
      (b.use m).ctx = b.ctx ∧
      (b.use m).options = b.options := by
  intro b s m
  exact ⟨rfl, rfl, rfl, rfl, rfl, rfl, rfl, rfl⟩

theorem runActionCatch_no_disclosure (opts : Options) (phase : String)
    (error input p c : JSValue)
    (h : opts.includeInputInErrorDetails ≠ some true) :
    (runActionCatch opts phase error input p c).hookCtx.input = .undefined ∧
    (runActionCatch opts phase error input p c).hookCtx.parsedInput = .undefined ∧
    (runActionCatch opts phase error input p c).hookCtx.ctx = .undefined ∧
    ((runActionCatch opts phase error input p c).isValidation = true →
      opts.formatValidationError? = none →
      getField (runActionCatch opts phase error input p c).thrown "data" = .undefined) := by
  simp only [runActionCatch]
  rw [if_neg h, if_neg h, if_neg h, if_neg h]
  by_cases hv : isValidationError error = true
  · rw [if_pos hv]
    refine ⟨rfl, rfl, rfl, ?_⟩
    intro _ hfmt
    rw [hfmt]
    rfl
  · rw [if_neg hv]
    refine ⟨rfl, rfl, rfl, ?_⟩
    intro hval _
    simp at hval

/-- C8: with input disclosure disabled (the default), any failing invocation
produces an error context whose input, parsedInput and ctx fields are
undefined, and the built-in validation error carries no data. -/
theorem c8_no_input_disclosure :
    ∀ (opts : Options) (schemas : List Schema) (mws : List MW) (baseCtx : Ctx)
      (handler : JSValue → Ctx → Except JSValue JSValue) (input : JSValue)
      (cr : CatchResult),
      opts.includeInputInErrorDetails ≠ some true →
      runAction schemas mws baseCtx opts handler input = .error cr →
      cr.hookCtx.input = .undefined ∧ cr.hookCtx.parsedInput = .undefined ∧
      cr.hookCtx.ctx = .undefined ∧
      (cr.isValidation = true → opts.formatValidationError? = none →
        getField cr.thrown "data" = .undefined) := by
  intro opts schemas mws baseCtx handler input cr hinc hrun
  unfold runAction at hrun
  split at hrun
  · cases hrun
    exact runActionCatch_no_disclosure opts "validation" _ input .undefined .undefined hinc
  · split at hrun
    · cases hrun
      exact runActionCatch_no_disclosure opts "middleware" _ input _ .undefined hinc
    · split at hrun
      · cases hrun
        exact runActionCatch_no_disclosure opts "handler" _ input _ _ hinc
      · cases hrun

theorem c8_no_input_disclosure_witness :
    exCatch.hookCtx.input = .undefined ∧ exCatch.hookCtx.parsedInput = .undefined ∧
    exCatch.hookCtx.ctx = .undefined ∧
    (exCatch.isValidation = true → ({} : Options).formatValidationError? = none →
      getField exCatch.thrown "data" = .undefined) := by
  exact c8_no_input_disclosure {} [] [] [] handlerBoom (.num 0) exCatch
    (by simp) rfl

theorem parseSchema_stripSafeProbes (s : Schema) (input : JSValue) :
    parseSchema (stripSafeProbes s) input = parseSchema s input := rfl

theorem runSchemas_stripSafeProbes (schemas : List Schema) (input : JSValue) :
    ∀ (merged : Option (List (String × JSValue))) (lastN : JSValue),
      runSchemas (schemas.map stripSafeProbes) input merged lastN =
        runSchemas schemas input merged lastN := by
  induction schemas with
  | nil => intro merged lastN; rfl
  | cons s rest ih =>
    intro merged lastN
    rw [List.map_cons, runSchemas, runSchemas, parseSchema_stripSafeProbes]
    cases parseSchema s input with
    | error e => rfl
    | ok parsed =>
      dsimp only
      by_cases hv : isPlainObject parsed = true
      · rw [if_pos hv, if_pos hv, ih]
      · rw [if_neg hv, if_neg hv, ih]

/-- C9: with exactly one validator remaining the resolver returns that
validator's direct parse of the working input, with no merge wrapping: a
single-validator chain on ordinary input parses the raw input, and a chain
whose FormData scan leaves one validator parses the decoded base input. -/
theorem c9_single_remaining_direct :
    (∀ (s : Schema) (input : JSValue),
       isFormData input = false →
       validateInput [s] input = parseSchema s input) ∧
    (∀ (schemas : List Schema) (input : JSValue) (s : Schema) (base : JSValue),
       isFormData input = true →
       formDataScan schemas input = ([s], base) →
       validateInput schemas input = parseSchema s base) := by
  constructor
  · intro s input hF
    rw [validateInput]
    rw [if_neg (by simp)]
    rw [if_neg (by simp [hF])]
  · intro schemas input s base hF hscan
    cases schemas with
    | nil => simp [formDataScan] at hscan
    | cons a rest =>
      rw [validateInput]
      rw [if_neg (by simp)]
      rw [if_pos hF, hscan]

theorem c9_single_remaining_direct_witness :
    validateInput [schemaA] (.obj []) = parseSchema schemaA (.obj []) ∧
    formDataScan [schemaFD, schemaA] exFD = ([schemaA], .obj [("name", .str "Grace")]) ∧
    validateInput [schemaFD, schemaA] exFD =
      parseSchema schemaA (.obj [("name", .str "Grace")]) := by
  refine ⟨?_, rfl, ?_⟩
  · exact c9_single_remaining_direct.1 schemaA (.obj []) rfl
  · exact c9_single_remaining_direct.2 [schemaFD, schemaA] exFD schemaA
      (.obj [("name", .str "Grace")]) rfl rfl

/-- C10: only an actual FormData instance triggers the substitution scan; a
plain object, however FormData-like, is handled by the ordinary path in which
every configured validator runs on the raw input, no validator is removed,
and the safe probe capabilities are never consulted. -/
theorem c10_formdata_instance_only :
    (∀ (entries : List (String × String)), isFormData (.formData entries) = true) ∧
    (∀ (fs : List (String × JSValue)), isFormData (.obj fs) = false) ∧
    (∀ (schemas : List Schema) (input : JSValue),
       isFormData input = false →
       validateInput schemas input =
         (match schemas with
          | [] => .ok input
          | [s] => parseSchema s input
          | _ => runSchemas schemas input none .undefined)) ∧
    (∀ (schemas : List Schema) (input : JSValue),
       isFormData input = false →
       validateInput (schemas.map stripSafeProbes) input =
         validateInput schemas input) := by
  have hplain : ∀ (schemas : List Schema) (input : JSValue),
      isFormData input = false →
      validateInput schemas input =
        (match schemas with
         | [] => .ok input
         | [s] => parseSchema s input
         | _ => runSchemas schemas input none .undefined) := by
    intro schemas input hF
    cases schemas with
    | nil => rfl
    | cons a rest =>
      rw [validateInput]
      rw [if_neg (by simp)]
      rw [if_neg (by simp [hF])]
  refine ⟨fun _ => rfl, fun _ => rfl, hplain, ?_⟩
  intro schemas input hF
  rw [hplain (schemas.map stripSafeProbes) input hF, hplain schemas input hF]
  cases schemas with
  | nil => rfl
  | cons a rest =>
    cases rest with
    | nil => exact parseSchema_stripSafeProbes a input
    | cons b more =>
      exact runSchemas_stripSafeProbes (a :: b :: more) input none .undefined

theorem c10_formdata_instance_only_witness :
    validateInput [schemaFD, schemaA] (.obj [("duck", .bool true)]) =
      runSchemas [schemaFD, schemaA] (.obj [("duck", .bool true)]) none .undefined ∧
    validateInput ([schemaA, schemaB].map stripSafeProbes) (.obj []) =
      validateInput [schemaA, schemaB] (.obj []) := by
  constructor
  · exact c10_formdata_instance_only.2.2.1 [schemaFD, schemaA]
      (.obj [("duck", .bool true)]) rfl
  · exact c10_formdata_instance_only.2.2.2 [schemaA, schemaB] (.obj []) rfl

end NextActionPlus
